import Mathlib

/-!
Shallow embedding of the Kakarot scripting translation layer
(`scripts/utils/kakarot.py`): the outbound transaction packager's outcome
extraction (`eth_send_transaction`), the inbound event reconstructor
(`_parse_events`, `_get_matching_logs_for_event`), and the success-flag
failure signaling of `deploy` and `_wrap_kakarot`.

Starknet field elements and 256-bit integers are embedded as `Nat`;
fallible Python code (exceptions) is embedded as `Except String` or
`Except EvmError`.
-/

namespace Kakarot

/-- Decidable equality on `Except`, so that concrete runs of the embedded
fallible functions can be checked by `decide`. -/
instance {ε α : Type} [DecidableEq ε] [DecidableEq α] :
    DecidableEq (Except ε α) := fun x y =>
  match x, y with
  | .error a, .error b =>
      if h : a = b then .isTrue (by rw [h]) else .isFalse (by simp [h])
  | .ok a, .ok b =>
      if h : a = b then .isTrue (by rw [h]) else .isFalse (by simp [h])
  | .error _, .ok _ => .isFalse (by simp)
  | .ok _, .error _ => .isFalse (by simp)

/-- A native Starknet event as delivered in a transaction receipt:
emitting contract address, ordered key (topic) field values, ordered data
field values. Mirrors `starknet_py.net.client_models.Event`. -/
structure NativeEvent where
  from_address : Nat
  keys : List Nat
  data : List Nat
deriving DecidableEq, Repr, Inhabited

/-! ## Outbound packager: outcome extraction in `eth_send_transaction` -/

/-- Value of `starknet_keccak(b"transaction_executed")`: the keccak-256
hash of the ASCII bytes of `transaction_executed`, reduced modulo 2^250
(the Starknet keccak truncation). -/
def TRANSACTION_EXECUTED_HASH : Nat :=
  0x5ad857f66a5b55f1301ff1ed7e098ac6d4433148f0b72ebc4a2945ab85ad53

/-- The filter of `eth_send_transaction` over the receipt events:
`event.from_address == evm_account.address and
 event.keys[0] == starknet_keccak(b"transaction_executed")`.
Python `event.keys[0]` presupposes a nonempty key list; we embed it as
`keys.headI` and carry nonemptiness as a hypothesis where it matters. -/
def statusEvents (accountAddress : Nat) (events : List NativeEvent) :
    List NativeEvent :=
  events.filter fun e =>
    e.from_address == accountAddress && e.keys.headI == TRANSACTION_EXECUTED_HASH

/-- The Python starred unpacking
`(msg_hash_low, msg_hash_high, response_len, *response, success) = data`:
it needs at least 4 values (three named before the star, one after) and
otherwise raises `ValueError`; the star collects the middle values. -/
def unpackStatusData (data : List Nat) :
    Except String (Nat × Nat × Nat × List Nat × Nat) :=
  match data with
  | d0 :: d1 :: d2 :: d3 :: rest =>
      .ok (d0, d1, d2, (d3 :: rest).dropLast,
           (d3 :: rest).getLast (List.cons_ne_nil d3 rest))
  | _ => .error "ValueError: not enough values to unpack"

/-- The tail of `eth_send_transaction` applied to the unique status
event's data: destructure positionally, then check the declared response
length against the actual response count
(`if response_len != len(response): raise ValueError(...)`), and return
`(response, success)`. -/
def extractOutcome (data : List Nat) : Except String (List Nat × Nat) :=
  match unpackStatusData data with
  | .error e => .error e
  | .ok (_, _, response_len, response, success) =>
      if response_len ≠ response.length then
        .error "Not able to parse event data"
      else
        .ok (response, success)

/-- Outcome extraction of `eth_send_transaction` over the full receipt
event list: filter to the status events of the submitting account, demand
exactly one (`if len(transaction_events) != 1: raise ValueError(...)`),
then destructure that event's data. -/
def ethSendOutcome (accountAddress : Nat) (receiptEvents : List NativeEvent) :
    Except String (List Nat × Nat) :=
  match statusEvents accountAddress receiptEvents with
  | [e] => extractOutcome e.data
  | _ => .error "Cannot locate the single event giving the actual tx status"

/-! ## Failure signaling: `EvmTransactionError` on a zero success flag -/

/-- Errors raised by the caller-visible wrappers: the typed
`EvmTransactionError` carrying the raw response payload, and plain Python
`ValueError` (e.g. from tuple unpacking in `deploy`). -/
inductive EvmError where
  | evmTransactionError (payload : List Nat)
  | valueError (msg : String)
deriving DecidableEq, Repr

/-- The tail of `deploy` applied to the `(response, success)` pair
returned by `eth_send_transaction`:
`if success == 0: raise EvmTransactionError(response)` and then
`starknet_address, evm_address = response` (a 2-tuple unpacking that
raises `ValueError` if the response does not hold exactly two values). -/
def deployOutcome (response : List Nat) (success : Nat) :
    Except EvmError (Nat × Nat) :=
  if success = 0 then
    .error (.evmTransactionError response)
  else
    match response with
    | [starknet_address, evm_address] => .ok (starknet_address, evm_address)
    | _ => .error (.valueError "not enough values to unpack")

/-- The tail of the state-mutating path of `_wrap_kakarot`:
`if success == 0: raise EvmTransactionError(response)` else return the
receipt (the receipt is opaque to this layer, hence a type variable). -/
def wrapCallOutcome {α : Type} (receipt : α) (response : List Nat)
    (success : Nat) : Except EvmError α :=
  if success = 0 then .error (.evmTransactionError response) else .ok receipt

/-- The success check of the read-only `eth_call` path of `_wrap_kakarot`:
`if result.success == 0: raise EvmTransactionError(result.return_data)`,
else the raw return bytes are handed to ABI decoding. -/
def ethCallCheck (return_data : List Nat) (success : Nat) :
    Except EvmError (List Nat) :=
  if success = 0 then .error (.evmTransactionError return_data) else .ok return_data

/-! ## Inbound event reconstructor: `_parse_events` -/

/-- The topic reconstruction formula of `_parse_events`:
`event.keys[i] + 2**128 * event.keys[i + 1]` — the low and high halves of
the Cairo Uint256 representation of a 32-byte topic. -/
def reconstructTopic (low high : Nat) : Nat :=
  low + 2 ^ 128 * high

/-- The filter of `_parse_events`:
`event.from_address == kakarot_address and event.keys[0] < 2**160`.
As in `statusEvents`, Python `event.keys[0]` is embedded as `keys.headI`
with nonemptiness as a side condition. -/
def retainedEvents (kakarotAddress : Nat) (events : List NativeEvent) :
    List NativeEvent :=
  events.filter fun e =>
    e.from_address == kakarotAddress && decide (e.keys.headI < 2 ^ 160)

/-- A reconstructed synthetic Ethereum log, keeping the fields of the
`LogReceipt` literal of `_parse_events` that this layer actually computes
(the block- and transaction-context fields are zero-filled placeholders).
`address` holds the 160-bit integer whose 40-hex-digit rendering is
checksummed by the external `to_checksum_address`; each entry of `topics`
holds the 256-bit integer whose 32-byte big-endian rendering is the topic
bytes. -/
structure LogReceipt where
  address : Nat
  data : List Nat
  logIndex : Nat
  topics : List Nat
deriving DecidableEq, Repr, Inhabited

/-- The topic list comprehension of `_parse_events` over the keys after
the leading address key: pairs are taken at indices (1,2), (3,4), ... of
the full key list, i.e. consecutively from its tail. When a low value has
no following high value (`event.keys[i + 1]` with `i + 1 == len(keys)`),
Python raises `IndexError`. -/
def pairTopics : List Nat → Except String (List Nat)
  | [] => .ok []
  | [_] => .error "IndexError: list index out of range"
  | low :: high :: rest =>
      (pairTopics rest).map fun ts => reconstructTopic low high :: ts

/-- The Python `bytes(event.data)` conversion: it succeeds exactly when
every value lies in range(0, 256), keeping the values unchanged, and
raises `ValueError` on the first value outside that range. -/
def bytesOfData : List Nat → Except String (List Nat)
  | [] => .ok []
  | v :: rest =>
      if v < 256 then (bytesOfData rest).map fun bs => v :: bs
      else .error "ValueError: bytes must be in range(0, 256)"

/-- One synthetic log of `_parse_events`: address from the first key, data
from `bytes(event.data)`, topics from the remaining key pairs, log index
from the enumeration counter. Keyword arguments of the `LogReceipt` call
evaluate left to right, so the `data` conversion runs (and can raise its
`ValueError`) before the topics comprehension. -/
def buildLogReceipt (logIndex : Nat) (e : NativeEvent) :
    Except String LogReceipt :=
  match bytesOfData e.data with
  | .error m => .error m
  | .ok bs =>
      (pairTopics e.keys.tail).map fun ts =>
        { address := e.keys.headI
          data := bs
          logIndex := logIndex
          topics := ts }

/-- The `log_receipts` list comprehension of `_parse_events` with its
`enumerate` counter: an `IndexError` raised while building any single log
aborts the whole comprehension. -/
def buildLogReceipts : Nat → List NativeEvent → Except String (List LogReceipt)
  | _, [] => .ok []
  | i, e :: rest =>
      match buildLogReceipt i e with
      | .error m => .error m
      | .ok lr =>
          match buildLogReceipts (i + 1) rest with
          | .error m => .error m
          | .ok lrs => .ok (lr :: lrs)

/-- Modelled from the spec: an Ethereum event ABI descriptor as consumed
by the external `web3` standard event-log decoder (`get_event_data`),
which is not part of this repository. A descriptor carries its name, its
anonymous flag, the precomputed event-signature topic
(`event_abi_to_log_topic`, a keccak hash, kept abstract as the integer its
32 bytes encode), the number of indexed inputs (one topic each), and the
minimal byte length its non-indexed layout requires of the data section. -/
structure EventAbi where
  name : String
  anonymous : Bool
  signature : Nat
  numIndexed : Nat
  dataBytesRequired : Nat
deriving DecidableEq, Repr

/-- The decoded event returned for one matching log: the event name, the
non-signature topics consumed for the indexed arguments, and the data
bytes consumed for the rest (actual ABI type decoding is the external
codec's job and is kept abstract). -/
structure DecodedEvent where
  event : String
  indexedTopics : List Nat
  dataBytes : List Nat
deriving DecidableEq, Repr

/-- Modelled from the spec: the external `web3` `get_event_data` routine —
standard Ethereum event-log decoding. A non-anonymous descriptor requires
a first topic equal to its signature (`MismatchedABI` otherwise); the
remaining (for anonymous descriptors: all) topics must number exactly the
indexed inputs (`LogTopicError` otherwise); the data section must be long
enough for the non-indexed layout (`InsufficientDataBytes` otherwise). -/
def get_event_data (abi : EventAbi) (lr : LogReceipt) :
    Except String DecodedEvent :=
  match
    (if abi.anonymous then
      .ok lr.topics
    else
      match lr.topics with
      | [] => .error "MismatchedABI"
      | t0 :: rest =>
          if t0 = abi.signature then .ok rest else .error "MismatchedABI"
    : Except String (List Nat)) with
  | .error e => .error e
  | .ok logTopics =>
      if logTopics.length ≠ abi.numIndexed then
        .error "LogTopicError"
      else if lr.data.length < abi.dataBytesRequired then
        .error "InsufficientDataBytes"
      else
        .ok { event := abi.name, indexedTopics := logTopics, dataBytes := lr.data }

/-- The per-descriptor scan of `_get_matching_logs_for_event`: try every
log in order, keep the decoded arguments of the successes, silently skip
the logs on which decoding raises one of the three caught errors
(`MismatchedABI`, `LogTopicError`, `InsufficientDataBytes` — the only
errors the modelled decoder produces). -/
def _get_matching_logs_for_event (abi : EventAbi) (lrs : List LogReceipt) :
    List DecodedEvent :=
  lrs.filterMap fun lr => (get_event_data abi lr).toOption

/-- The whole of `_parse_events`: filter the native events, build the
synthetic logs, then map every requested descriptor to its ordered list of
decoded matches. The Python dict comprehension keyed by descriptor name is
embedded as an association list in descriptor order. -/
def _parse_events (abis : List EventAbi) (kakarotAddress : Nat)
    (starknet_events : List NativeEvent) :
    Except String (List (String × List DecodedEvent)) := do
  let lrs ← buildLogReceipts 0 (retainedEvents kakarotAddress starknet_events)
  .ok (abis.map fun abi => (abi.name, _get_matching_logs_for_event abi lrs))

/-! ## Claim theorems -/

/-- Helper: the starred unpacking on a list with at least four values
yields the three leading values, the middle, and the last value. -/
theorem unpackStatusData_cons (d0 d1 d2 : Nat) (l : List Nat) (hl : l ≠ []) :
    unpackStatusData (d0 :: d1 :: d2 :: l) =
      .ok (d0, d1, d2, l.dropLast, l.getLast hl) := by
  cases l with
  | nil => exact absurd rfl hl
  | cons d3 rest => rfl

/-- Helper: the starred unpacking on data of shape
`[d0, d1, d2] ++ vals ++ [s]` collects exactly `vals` in the star and `s`
as the trailing value. -/
theorem unpackStatusData_concat (d0 d1 d2 s : Nat) (vals : List Nat) :
    unpackStatusData (d0 :: d1 :: d2 :: (vals ++ [s])) =
      .ok (d0, d1, d2, vals, s) := by
  rw [unpackStatusData_cons d0 d1 d2 (vals ++ [s]) (by simp)]
  simp [List.dropLast_concat, List.getLast_concat]

/-- C1: for a status event whose data destructures as message-hash low,
message-hash high, declared length `L`, trailing values and a success
flag, extraction succeeds with exactly those values and the flag when `L`
equals the actual count, and fails with the `ValueError` message of
`eth_send_transaction` otherwise. -/
theorem extractOutcome_length_check (msgLow msgHigh L s : Nat)
    (vals : List Nat) :
    extractOutcome (msgLow :: msgHigh :: L :: (vals ++ [s])) =
      if L = vals.length then .ok (vals, s)
      else .error "Not able to parse event data" := by
  rw [extractOutcome, unpackStatusData_concat]
  by_cases h : L = vals.length <;> simp [h]

/-- Concrete run of C1: declared length 2 with two values succeeds,
declared length 3 with two values fails. -/
theorem extractOutcome_length_check_witness :
    extractOutcome [7, 8, 2, 10, 11, 1] = .ok ([10, 11], 1) ∧
    extractOutcome [7, 8, 3, 10, 11, 1] =
      .error "Not able to parse event data" := by
  constructor
  · exact (extractOutcome_length_check 7 8 2 1 [10, 11]).trans (by decide)
  · exact (extractOutcome_length_check 7 8 3 1 [10, 11]).trans (by decide)

/-- C2: `eth_send_transaction` fails with the uniqueness error unless the
filtered status-event list has exactly one element, and with exactly one
match it extracts from that event's data. Events are assumed to carry at
least one key, as Python `event.keys[0]` presupposes. -/
theorem ethSendOutcome_unique (a : Nat) (evs : List NativeEvent)
    (_hk : ∀ e ∈ evs, e.keys ≠ []) :
    ((statusEvents a evs).length ≠ 1 →
      ethSendOutcome a evs =
        .error "Cannot locate the single event giving the actual tx status") ∧
    ∀ e, statusEvents a evs = [e] →
      ethSendOutcome a evs = extractOutcome e.data := by
  constructor
  · intro h
    rcases hst : statusEvents a evs with _ | ⟨e, _ | ⟨e', t⟩⟩
    · simp [ethSendOutcome, hst]
    · exact absurd (by rw [hst]; rfl) h
    · simp [ethSendOutcome, hst]
  · intro e he
    simp [ethSendOutcome, he]

/-- Concrete run of C2: a receipt with exactly one status event extracts
from that event's data. -/
theorem ethSendOutcome_unique_witness :
    ethSendOutcome 7 [⟨7, [TRANSACTION_EXECUTED_HASH], [1, 2, 0, 5]⟩] =
      extractOutcome [1, 2, 0, 5] :=
  (ethSendOutcome_unique 7 [⟨7, [TRANSACTION_EXECUTED_HASH], [1, 2, 0, 5]⟩]
    (by simp)).2 ⟨7, [TRANSACTION_EXECUTED_HASH], [1, 2, 0, 5]⟩ (by rfl)

/-- C3: splitting a 256-bit integer into its low and high 128-bit halves
and reconstructing with the topic formula of `_parse_events` restores the
integer exactly. -/
theorem topic_roundtrip (T : Nat) (_h : T < 2 ^ 256) :
    reconstructTopic (T % 2 ^ 128) (T / 2 ^ 128) = T := by
  simp [reconstructTopic, Nat.mod_add_div]

/-- Concrete run of C3 at T = 0xdead. -/
theorem topic_roundtrip_witness :
    0xdead < 2 ^ 256 ∧
    reconstructTopic (0xdead % 2 ^ 128) (0xdead / 2 ^ 128) = 0xdead :=
  ⟨by norm_num, topic_roundtrip 0xdead (by norm_num)⟩

/-- Helper: the tail of a list indexes one past the original list. -/
theorem getD_tail_eq (l : List Nat) (m d : Nat) :
    l.tail.getD m d = l.getD (m + 1) d := by
  cases l <;> simp [List.getD]

/-- Helper: a successful `pairTopics` run yields one topic per key pair,
each being the reconstruction of the pair at indices (2j, 2j+1). -/
theorem pairTopics_spec : ∀ (l ts : List Nat), pairTopics l = .ok ts →
    ts.length = l.length / 2 ∧
    ∀ j, j < ts.length →
      ts.getD j 0 = reconstructTopic (l.getD (2 * j) 0) (l.getD (2 * j + 1) 0)
  | [], ts, h => by
      simp only [pairTopics, Except.ok.injEq] at h
      simp [← h]
  | [a], ts, h => by simp [pairTopics] at h
  | a :: b :: rest, ts, h => by
      rcases hr : pairTopics rest with m | ts'
      · rw [pairTopics, hr] at h
        simp [Except.map] at h
      · rw [pairTopics, hr] at h
        simp only [Except.map, Except.ok.injEq] at h
        obtain ⟨ihlen, ihget⟩ := pairTopics_spec rest ts' hr
        subst h
        refine ⟨by simp [ihlen]; omega, ?_⟩
        intro j hj
        cases j with
        | zero => simp [List.getD]
        | succ j' =>
            have h1 : 2 * (j' + 1) = 2 * j' + 1 + 1 := by ring
            have h2 : 2 * (j' + 1) + 1 = 2 * j' + 1 + 1 + 1 := by ring
            rw [h2, h1]
            simp only [List.getD_cons_succ]
            exact ihget j' (by simpa using hj)

/-- Helper: the only error `pairTopics` ever produces is the Python
`IndexError` message. -/
theorem pairTopics_error_eq : ∀ (l : List Nat) (m : String),
    pairTopics l = .error m → m = "IndexError: list index out of range"
  | [], m, h => by simp [pairTopics] at h
  | [a], m, h => by
      simp only [pairTopics, Except.error.injEq] at h
      exact h.symm
  | a :: b :: rest, m, h => by
      rcases hr : pairTopics rest with m' | ts'
      · rw [pairTopics, hr] at h
        simp only [Except.map, Except.error.injEq] at h
        exact h ▸ pairTopics_error_eq rest m' hr
      · rw [pairTopics, hr] at h
        simp [Except.map] at h

/-- Helper: an even number of remaining keys pairs up completely. -/
theorem pairTopics_ok_of_even : ∀ (l : List Nat), l.length % 2 = 0 →
    ∃ ts, pairTopics l = .ok ts
  | [], _ => ⟨[], rfl⟩
  | [a], h => by simp at h
  | a :: b :: rest, h => by
      obtain ⟨ts, hts⟩ := pairTopics_ok_of_even rest (by simp at h; omega)
      exact ⟨reconstructTopic a b :: ts, by rw [pairTopics, hts]; rfl⟩

/-- Helper: an odd number of remaining keys leaves a low value without its
high value and raises `IndexError`. -/
theorem pairTopics_error_of_odd : ∀ (l : List Nat), l.length % 2 = 1 →
    pairTopics l = .error "IndexError: list index out of range"
  | [], h => by simp at h
  | [a], _ => rfl
  | a :: b :: rest, h => by
      rw [pairTopics, pairTopics_error_of_odd rest (by simp at h; omega)]
      rfl

/-- Helper: byte conversion succeeds on in-range data, returning the
values unchanged. -/
theorem bytesOfData_ok_of_lt : ∀ (l : List Nat), (∀ v ∈ l, v < 256) →
    bytesOfData l = .ok l
  | [], _ => rfl
  | v :: rest, h => by
      rw [bytesOfData, if_pos (h v (by simp)),
        bytesOfData_ok_of_lt rest (fun x hx => h x (by simp [hx]))]
      rfl

/-- Helper: a successful byte conversion returns the input values. -/
theorem bytesOfData_ok_eq : ∀ (l bs : List Nat), bytesOfData l = .ok bs → bs = l
  | [], bs, h => by
      simp only [bytesOfData, Except.ok.injEq] at h
      exact h.symm
  | v :: rest, bs, h => by
      by_cases hv : v < 256
      · rw [bytesOfData, if_pos hv] at h
        rcases hr : bytesOfData rest with m | bs'
        · rw [hr] at h; simp [Except.map] at h
        · rw [hr] at h
          simp only [Except.map, Except.ok.injEq] at h
          rw [← h, bytesOfData_ok_eq rest bs' hr]
      · rw [bytesOfData, if_neg hv] at h
        simp at h

/-- Helper: on an event whose data values are all bytes, building the log
reduces to the topics comprehension. -/
theorem buildLogReceipt_eq_of_bytes (m : Nat) (e : NativeEvent)
    (hdata : ∀ v ∈ e.data, v < 256) :
    buildLogReceipt m e = (pairTopics e.keys.tail).map fun ts =>
      { address := e.keys.headI
        data := e.data
        logIndex := m
        topics := ts } := by
  rw [buildLogReceipt, bytesOfData_ok_of_lt e.data hdata]

/-- Helper: a successful `buildLogReceipts` run yields one log per event,
at matching positions, with the address, data, enumeration counter and
paired topics of that event. -/
theorem buildLogReceipts_spec :
    ∀ (n : Nat) (evs : List NativeEvent) (lrs : List LogReceipt),
    buildLogReceipts n evs = .ok lrs →
    lrs.length = evs.length ∧
    ∀ i, i < evs.length →
      ∃ ts, pairTopics (evs.getD i default).keys.tail = .ok ts ∧
        lrs.getD i default =
          { address := (evs.getD i default).keys.headI
            data := (evs.getD i default).data
            logIndex := n + i
            topics := ts }
  | n, [], lrs, h => by
      simp only [buildLogReceipts, Except.ok.injEq] at h
      simp [← h]
  | n, e :: rest, lrs, h => by
      rw [buildLogReceipts] at h
      rcases h1 : buildLogReceipt n e with m | lr
      · rw [h1] at h; simp at h
      · rw [h1] at h
        rcases h2 : buildLogReceipts (n + 1) rest with m | lrs'
        · rw [h2] at h; simp at h
        · rw [h2] at h
          simp only [Except.ok.injEq] at h
          obtain ⟨hlen, hspec⟩ := buildLogReceipts_spec (n + 1) rest lrs' h2
          subst h
          refine ⟨by simp [hlen], ?_⟩
          intro i hi
          cases i with
          | zero =>
              rcases hb : bytesOfData e.data with m | bs
              · rw [buildLogReceipt, hb] at h1; simp at h1
              · rw [buildLogReceipt, hb] at h1
                rcases h3 : pairTopics e.keys.tail with m | ts
                · rw [h3] at h1; simp [Except.map] at h1
                · rw [h3] at h1
                  simp only [Except.map, Except.ok.injEq] at h1
                  have hbs := bytesOfData_ok_eq e.data bs hb
                  exact ⟨ts, by simpa using h3, by simp [← h1, hbs]⟩
          | succ i' =>
              obtain ⟨ts, hts, hlr⟩ := hspec i' (by simpa using hi)
              refine ⟨ts, by simpa using hts, ?_⟩
              have harith : n + 1 + i' = n + (i' + 1) := by omega
              rw [← harith]
              simpa using hlr

/-- C4: when the synthetic logs build without error, the log at each
position i of the retained list has that event's first key as address,
that event's data values as data bytes, log index i, and one topic per
subsequent key pair (low at key index 2j+1, high at 2j+2) reconstructed as
low + high * 2^128. Key lists are assumed nonempty and data values below
256, as Python `keys[0]` and `bytes(...)` presuppose. -/
theorem parse_events_log_reconstruction (k : Nat) (events : List NativeEvent)
    (lrs : List LogReceipt)
    (_hkeys : ∀ e ∈ events, e.keys ≠ [])
    (_hbytes : ∀ e ∈ events, ∀ v ∈ e.data, v < 256)
    (h : buildLogReceipts 0 (retainedEvents k events) = .ok lrs) :
    lrs.length = (retainedEvents k events).length ∧
    ∀ i, i < (retainedEvents k events).length →
      (lrs.getD i default).address =
        ((retainedEvents k events).getD i default).keys.headI ∧
      (lrs.getD i default).data =
        ((retainedEvents k events).getD i default).data ∧
      (lrs.getD i default).logIndex = i ∧
      (lrs.getD i default).topics.length =
        (((retainedEvents k events).getD i default).keys.length - 1) / 2 ∧
      ∀ j, j < (lrs.getD i default).topics.length →
        (lrs.getD i default).topics.getD j 0 =
          reconstructTopic
            (((retainedEvents k events).getD i default).keys.getD (2 * j + 1) 0)
            (((retainedEvents k events).getD i default).keys.getD (2 * j + 2) 0) := by
  obtain ⟨hlen, hspec⟩ := buildLogReceipts_spec 0 (retainedEvents k events) lrs h
  refine ⟨hlen, ?_⟩
  intro i hi
  obtain ⟨ts, hts, hlr⟩ := hspec i hi
  obtain ⟨htslen, htsget⟩ := pairTopics_spec _ ts hts
  rw [hlr]
  refine ⟨rfl, rfl, by simp, ?_, ?_⟩
  · simpa [List.length_tail] using htslen
  · intro j hj
    have hget := htsget j (by simpa using hj)
    show ts.getD j 0 = _
    rw [hget, getD_tail_eq, getD_tail_eq]

/-- Concrete run of C4: the event of spec scenario 7 (keys
`[0x1111, k1_low, k1_high, k2_low, k2_high]`, data `[d0]`) reconstructs
its first topic as k1_low + k1_high * 2^128. -/
theorem parse_events_log_reconstruction_witness :
    (([⟨0x1111, [9], 0, [3 + 2 ^ 128 * 4, 5 + 2 ^ 128 * 6]⟩] :
        List LogReceipt).getD 0 default).topics.getD 0 0 =
      reconstructTopic
        (((retainedEvents 5 [⟨5, [0x1111, 3, 4, 5, 6], [9]⟩]).getD 0
            default).keys.getD 1 0)
        (((retainedEvents 5 [⟨5, [0x1111, 3, 4, 5, 6], [9]⟩]).getD 0
            default).keys.getD 2 0) :=
  ((parse_events_log_reconstruction 5 [⟨5, [0x1111, 3, 4, 5, 6], [9]⟩]
      [⟨0x1111, [9], 0, [3 + 2 ^ 128 * 4, 5 + 2 ^ 128 * 6]⟩]
      (by decide) (by decide) (by decide)).2 0 (by decide)).2.2.2.2 0 (by decide)

/-- C5: an event is retained by `_parse_events` exactly when it comes from
the Kakarot address and its first key is below 2^160; an event with first
key at or above 2^160 is never retained, and exclusion is a total
filtering step rather than an error. Key lists are assumed nonempty, as
Python `event.keys[0]` presupposes. -/
theorem retainedEvents_guard (k : Nat) (events : List NativeEvent)
    (_hk : ∀ e ∈ events, e.keys ≠ []) :
    (∀ e, e ∈ retainedEvents k events ↔
        e ∈ events ∧ e.from_address = k ∧ e.keys.headI < 2 ^ 160) ∧
    ∀ e ∈ events, 2 ^ 160 ≤ e.keys.headI → e ∉ retainedEvents k events := by
  have hmem : ∀ e, e ∈ retainedEvents k events ↔
      e ∈ events ∧ e.from_address = k ∧ e.keys.headI < 2 ^ 160 := by
    intro e
    simp [retainedEvents, List.mem_filter, and_assoc]
  refine ⟨hmem, fun e he hge hin => ?_⟩
  have := ((hmem e).1 hin).2.2
  omega

/-- Concrete run of C5: a Kakarot-address event whose first key is exactly
2^160 is dropped. -/
theorem retainedEvents_guard_witness :
    (⟨6, [2 ^ 160], []⟩ : NativeEvent) ∉ retainedEvents 6 [⟨6, [2 ^ 160], []⟩] :=
  (retainedEvents_guard 6 [⟨6, [2 ^ 160], []⟩] (by simp)).2
    ⟨6, [2 ^ 160], []⟩ (by simp) (by simp)

/-- C6: on every caller-visible path — `deploy`, the state-mutating
wrapped call, and the read-only `eth_call` path — a zero success flag
raises `EvmTransactionError` carrying the raw response payload, and a
nonzero flag never raises that error. -/
theorem evm_error_on_zero_success {α : Type} (receipt : α)
    (response return_data : List Nat) (success : Nat) :
    (success = 0 →
      deployOutcome response success = .error (.evmTransactionError response) ∧
      wrapCallOutcome receipt response success =
        .error (.evmTransactionError response) ∧
      ethCallCheck return_data success =
        .error (.evmTransactionError return_data)) ∧
    (success ≠ 0 →
      (∀ p, deployOutcome response success ≠ .error (.evmTransactionError p)) ∧
      wrapCallOutcome receipt response success = .ok receipt ∧
      ethCallCheck return_data success = .ok return_data) := by
  constructor
  · intro h
    simp [deployOutcome, wrapCallOutcome, ethCallCheck, h]
  · intro h
    refine ⟨?_, by simp [wrapCallOutcome, h], by simp [ethCallCheck, h]⟩
    intro p
    rcases response with _ | ⟨x, _ | ⟨y, _ | ⟨z, t⟩⟩⟩ <;> simp [deployOutcome, h]

/-- Concrete run of C6: success flag 0 raises with the payload, success
flag 1 does not. -/
theorem evm_error_on_zero_success_witness :
    deployOutcome [3, 4] 0 = .error (.evmTransactionError [3, 4]) ∧
    deployOutcome [3, 4] 1 ≠ .error (.evmTransactionError [3, 4]) :=
  ⟨((evm_error_on_zero_success (0 : Nat) [3, 4] [] 0).1 rfl).1,
   ((evm_error_on_zero_success (0 : Nat) [3, 4] [] 1).2 one_ne_zero).1 [3, 4]⟩

/-- C7: in the per-descriptor scan, a log on which decoding errors is
silently dropped (removing it leaves the result unchanged), and a log that
decodes contributes its arguments in place, preserving the relative order
of the surrounding logs. -/
theorem getMatchingLogs_silent_filtering (abi : EventAbi)
    (pre post : List LogReceipt) (lr : LogReceipt) :
    (∀ s, get_event_data abi lr = .error s →
      _get_matching_logs_for_event abi (pre ++ lr :: post) =
        _get_matching_logs_for_event abi (pre ++ post)) ∧
    ∀ d, get_event_data abi lr = .ok d →
      _get_matching_logs_for_event abi (pre ++ lr :: post) =
        _get_matching_logs_for_event abi pre ++
          d :: _get_matching_logs_for_event abi post := by
  constructor <;> intro x hx <;>
    simp [_get_matching_logs_for_event, List.filterMap_append,
      List.filterMap_cons, hx, Except.toOption]

/-- Concrete run of C7: a log with insufficient data bytes is dropped
without error. -/
theorem getMatchingLogs_silent_filtering_witness :
    _get_matching_logs_for_event ⟨"EvtA", true, 0, 0, 5⟩
        ([] ++ (⟨1, [], 0, []⟩ : LogReceipt) :: []) =
      _get_matching_logs_for_event ⟨"EvtA", true, 0, 0, 5⟩ ([] ++ []) :=
  (getMatchingLogs_silent_filtering ⟨"EvtA", true, 0, 0, 5⟩ [] []
    ⟨1, [], 0, []⟩).1 "InsufficientDataBytes" (by decide)

/-- Helper: a non-anonymous descriptor decodes a log only when the log's
first topic equals the descriptor's signature topic. -/
theorem get_event_data_signature (abi : EventAbi) (lr : LogReceipt)
    (hanon : abi.anonymous = false) (d : DecodedEvent)
    (h : get_event_data abi lr = .ok d) :
    lr.topics.headI = abi.signature := by
  rcases ht : lr.topics with _ | ⟨t0, rest⟩
  · rw [get_event_data, hanon, ht] at h
    simp at h
  · by_cases hsig : t0 = abi.signature
    · simp [ht, hsig]
    · rw [get_event_data, hanon, ht] at h
      simp [hsig] at h

/-- Helper: a log produces an entry in a descriptor's result list exactly
when decoding it under that descriptor succeeds. -/
theorem matching_singleton (abi : EventAbi) (lr : LogReceipt) :
    (!(_get_matching_logs_for_event abi [lr]).isEmpty) =
      (get_event_data abi lr).toOption.isSome := by
  rcases h : get_event_data abi lr with s | d <;>
    simp [_get_matching_logs_for_event, h, Except.toOption]

/-- C8 (amended): when every requested descriptor is non-anonymous and the
descriptors' signature topics are pairwise distinct, any single log yields
an entry in at most one descriptor's result list. -/
theorem logs_unique_descriptor (abis : List EventAbi) (lr : LogReceipt)
    (hanon : ∀ abi ∈ abis, abi.anonymous = false)
    (hdist : (abis.map EventAbi.signature).Nodup) :
    (abis.countP fun abi =>
      !(_get_matching_logs_for_event abi [lr]).isEmpty) ≤ 1 := by
  induction abis with
  | nil => simp
  | cons a rest ih =>
      rw [List.map_cons, List.nodup_cons] at hdist
      rw [List.countP_cons]
      by_cases hp : (!(_get_matching_logs_for_event a [lr]).isEmpty) = true
      · have ha : ∃ d, get_event_data a lr = .ok d := by
          rw [matching_singleton] at hp
          rcases hg : get_event_data a lr with s | d
          · rw [hg] at hp; simp [Except.toOption] at hp
          · exact ⟨d, rfl⟩
        obtain ⟨da, hda⟩ := ha
        have hrest : rest.countP
            (fun abi => !(_get_matching_logs_for_event abi [lr]).isEmpty) = 0 := by
          rw [List.countP_eq_zero]
          intro b hb hpb
          have hb' : ∃ d, get_event_data b lr = .ok d := by
            rw [matching_singleton] at hpb
            rcases hg : get_event_data b lr with s | d
            · rw [hg] at hpb; simp [Except.toOption] at hpb
            · exact ⟨d, rfl⟩
          obtain ⟨db, hdb⟩ := hb'
          have h1 := get_event_data_signature a lr (hanon a (by simp)) da hda
          have h2 := get_event_data_signature b lr
            (hanon b (List.mem_cons_of_mem a hb)) db hdb
          exact hdist.1 (by
            rw [List.mem_map]
            exact ⟨b, hb, by rw [← h2, ← h1]⟩)
        simp [hrest, hp]
      · have ih' := ih (fun abi hm => hanon abi (List.mem_cons_of_mem a hm)) hdist.2
        have hpf : (!(_get_matching_logs_for_event a [lr]).isEmpty) = false := by
          simpa using hp
        rw [hpf]
        simpa using ih'

/-- Concrete run of the amended C8: two non-anonymous descriptors with
distinct signatures match a log at most once. -/
theorem logs_unique_descriptor_witness :
    (List.countP
        (fun abi => !(_get_matching_logs_for_event abi
          [(⟨3, [99], 0, [77]⟩ : LogReceipt)]).isEmpty)
        [⟨"EvtC", false, 77, 0, 0⟩, ⟨"EvtD", false, 78, 0, 0⟩]) ≤ 1 :=
  logs_unique_descriptor [⟨"EvtC", false, 77, 0, 0⟩, ⟨"EvtD", false, 78, 0, 0⟩]
    ⟨3, [99], 0, [77]⟩ (by decide) (by decide)

/-- Counterexample to C8 as stated: two distinct anonymous descriptors
both decode the one retained event of a batch, so its decoded arguments
appear in both descriptors' result lists of `_parse_events`. -/
theorem parse_events_duplicate_decode :
    _parse_events [⟨"EvtA", true, 0, 0, 0⟩, ⟨"EvtB", true, 0, 0, 0⟩] 5
        [⟨5, [3], [4]⟩] =
      .ok [("EvtA", [⟨"EvtA", [], [4]⟩]), ("EvtB", [⟨"EvtB", [], [4]⟩])] ∧
    ¬ ((List.countP
          (fun abi => !(_get_matching_logs_for_event abi
            [(⟨3, [4], 0, []⟩ : LogReceipt)]).isEmpty)
          [⟨"EvtA", true, 0, 0, 0⟩, ⟨"EvtB", true, 0, 0, 0⟩]) ≤ 1) := by
  constructor
  · decide
  · decide

/-- C9: extraction from a status event with fewer than four data values
fails with the Python unpacking `ValueError`, and any successful
extraction implies at least four data values were present. -/
theorem extractOutcome_needs_four (data : List Nat) :
    (data.length < 4 →
      extractOutcome data = .error "ValueError: not enough values to unpack") ∧
    ∀ r, extractOutcome data = .ok r → 4 ≤ data.length := by
  rcases data with _ | ⟨a, _ | ⟨b, _ | ⟨c, _ | ⟨d, rest⟩⟩⟩⟩ <;>
    simp [extractOutcome, unpackStatusData]

/-- Concrete run of C9: three data values cannot be destructured. -/
theorem extractOutcome_needs_four_witness :
    extractOutcome [7, 8, 2] = .error "ValueError: not enough values to unpack" :=
  (extractOutcome_needs_four [7, 8, 2]).1 (by decide)

/-- Helper: an event whose data values are all bytes but whose nonempty
key list has even length has an unpaired low key, so building its log
raises `IndexError`: `event.keys[i + 1]` falls one past the end. -/
theorem buildLogReceipt_even_error (m : Nat) (e : NativeEvent)
    (hdata : ∀ v ∈ e.data, v < 256)
    (hne : e.keys ≠ []) (heven : e.keys.length % 2 = 0) :
    buildLogReceipt m e = .error "IndexError: list index out of range" := by
  have hlen : e.keys.length ≠ 0 := fun hz => hne (List.length_eq_zero.1 hz)
  have htail : e.keys.tail.length % 2 = 1 := by
    simp only [List.length_tail]
    omega
  rw [buildLogReceipt_eq_of_bytes m e hdata, pairTopics_error_of_odd _ htail]
  rfl

/-- Helper: on an event whose data values are all bytes, the only error
`buildLogReceipt` produces is the `IndexError` message. -/
theorem buildLogReceipt_error_msg (m : Nat) (e : NativeEvent) (s : String)
    (hdata : ∀ v ∈ e.data, v < 256)
    (h : buildLogReceipt m e = .error s) :
    s = "IndexError: list index out of range" := by
  rw [buildLogReceipt_eq_of_bytes m e hdata] at h
  rcases hp : pairTopics e.keys.tail with s' | ts
  · rw [hp] at h
    simp only [Except.map, Except.error.injEq] at h
    rw [← h]
    exact pairTopics_error_eq _ s' hp
  · rw [hp] at h
    simp [Except.map] at h

/-- Helper: one event with a nonempty even-length key list anywhere in a
batch of byte-valued events makes the whole log-building comprehension
raise `IndexError`. -/
theorem buildLogReceipts_error_of_even :
    ∀ (n : Nat) (evs : List NativeEvent),
    (∀ e' ∈ evs, ∀ v ∈ e'.data, v < 256) →
    ∀ (e : NativeEvent), e ∈ evs →
    e.keys ≠ [] → e.keys.length % 2 = 0 →
    buildLogReceipts n evs = .error "IndexError: list index out of range"
  | _, [], _, e, he, _, _ => absurd he (List.not_mem_nil e)
  | n, e0 :: rest, hbytes, e, he, hne, heven => by
      rw [buildLogReceipts]
      rcases h0 : buildLogReceipt n e0 with s | lr
      · simpa using buildLogReceipt_error_msg n e0 s (hbytes e0 (by simp)) h0
      · rcases List.mem_cons.1 he with rfl | hmem
        · rw [buildLogReceipt_even_error n e (hbytes e (by simp)) hne heven] at h0
          exact absurd h0 (by simp)
        · rw [buildLogReceipts_error_of_even (n + 1) rest
            (fun e' hm => hbytes e' (List.mem_cons_of_mem e0 hm)) e hmem hne heven]

/-- C10: over a batch whose data values are all bytes (the
`bytes(event.data)` presupposition, checked before the topics
comprehension), an event with a nonempty key list of even length makes
log building fail with an uncaught `IndexError` — the event is neither
dropped nor truncated — while every event with an odd key count (address
key plus complete pairs) builds its log totally. -/
theorem even_keys_index_error (n : Nat) (evs : List NativeEvent)
    (hbytes : ∀ e ∈ evs, ∀ v ∈ e.data, v < 256) :
    ((∃ e, e ∈ evs ∧ e.keys ≠ [] ∧ e.keys.length % 2 = 0) →
      buildLogReceipts n evs = .error "IndexError: list index out of range") ∧
    ∀ e ∈ evs, e.keys.length % 2 = 1 → ∃ lr, buildLogReceipt n e = .ok lr := by
  constructor
  · rintro ⟨e, he, hne, heven⟩
    exact buildLogReceipts_error_of_even n evs hbytes e he hne heven
  · intro e he hodd
    obtain ⟨ts, hts⟩ := pairTopics_ok_of_even e.keys.tail
      (by simp only [List.length_tail]; omega)
    exact ⟨_, by rw [buildLogReceipt_eq_of_bytes n e (hbytes e he), hts]; rfl⟩

/-- Concrete run of C10: four keys (one address key, one complete pair,
one unpaired low key) with byte-valued data raise `IndexError`. -/
theorem even_keys_index_error_witness :
    buildLogReceipts 0 [⟨5, [1, 2, 3, 4], [7]⟩] =
      .error "IndexError: list index out of range" :=
  (even_keys_index_error 0 [⟨5, [1, 2, 3, 4], [7]⟩] (by simp)).1
    ⟨⟨5, [1, 2, 3, 4], [7]⟩, by simp, by simp, by simp⟩

end Kakarot
